import Mathlib

/-!
# sample-go-trace-client: the correlated log formatter and the run of `main`

A shallow embedding of `main.go`.

* Go strings are byte sequences (`Bytes`); nothing forces them to be valid UTF-8.
* `json.Marshal` is embedded for the values this program hands to it: the
  string encoder of `encoding/json` (`appendString`, with HTML escaping on, as
  `Marshal` sets it), `utf8.DecodeRuneInString`, and the struct encoder with
  `omitempty`.
* `fmt.Sprintf` is embedded for the `%s` and `%v` verbs on string operands.
* `main` is embedded as a program over an explicit process state (event trace
  and stack of deferred calls); `os.Exit`, reached through `log.Fatal` and
  `log.Fatalf`, ends the process without running the deferred calls.
* `readObject` is a reader of compact JSON objects with string members; it is
  the yardstick for statements of the form "the JSON has key k with value v".
-/

namespace TraceClient

/-! ## Byte strings -/

/-- A Go `string`: a sequence of bytes. -/
abbrev Bytes := List Nat

/-- The bytes of an ASCII literal of the source. -/
def ascii (s : String) : Bytes := s.toList.map Char.toNat

/-! ## `unicode/utf8` -/

/-- The rune `utf8.RuneError`, U+FFFD. -/
def RuneError : Nat := 0xFFFD

/-- The table `utf8.first`: information about the first byte of an encoding.
`0xF0` is ASCII (`as`), `0xF1` is invalid (`xx`); otherwise the low three bits
give the size and the high nibble indexes `acceptRanges`. -/
def first (b : Nat) : Nat :=
  if b < 0x80 then 0xF0
  else if b < 0xC2 then 0xF1
  else if b < 0xE0 then 0x02
  else if b = 0xE0 then 0x13
  else if b < 0xED then 0x03
  else if b = 0xED then 0x23
  else if b < 0xF0 then 0x03
  else if b = 0xF0 then 0x34
  else if b < 0xF4 then 0x04
  else if b = 0xF4 then 0x44
  else 0xF1

/-- The table `utf8.acceptRanges`: range of the second byte. -/
def acceptRanges (i : Nat) : Nat × Nat :=
  if i = 0 then (0x80, 0xBF)
  else if i = 1 then (0xA0, 0xBF)
  else if i = 2 then (0x80, 0x9F)
  else if i = 3 then (0x90, 0xBF)
  else if i = 4 then (0x80, 0x8F)
  else (0, 0)

/-- The function `utf8.DecodeRuneInString`: the first rune of `s` and its width
in bytes; `(RuneError, 1)` on an invalid encoding, `(RuneError, 0)` on the
empty string. -/
def DecodeRuneInString (s : Bytes) : Nat × Nat :=
  match s with
  | [] => (RuneError, 0)
  | s0 :: t =>
    let x := first s0
    if 0xF0 ≤ x then
      -- mask := rune(x) << 31 >> 31 is all ones exactly when x is odd (xx)
      (if x % 2 = 1 then RuneError else s0, 1)
    else
      let sz := x &&& 7
      let accept := acceptRanges (x >>> 4)
      if s.length < sz then (RuneError, 1)
      else
        match t with
        | [] => (RuneError, 1)
        | s1 :: t1 =>
          if s1 < accept.1 ∨ accept.2 < s1 then (RuneError, 1)
          else if sz ≤ 2 then (((s0 &&& 0x1F) <<< 6) ||| (s1 &&& 0x3F), 2)
          else
            match t1 with
            | [] => (RuneError, 1)
            | s2 :: t2 =>
              if s2 < 0x80 ∨ 0xBF < s2 then (RuneError, 1)
              else if sz ≤ 3 then
                (((s0 &&& 0x0F) <<< 12) ||| ((s1 &&& 0x3F) <<< 6) ||| (s2 &&& 0x3F), 3)
              else
                match t2 with
                | [] => (RuneError, 1)
                | s3 :: _ =>
                  if s3 < 0x80 ∨ 0xBF < s3 then (RuneError, 1)
                  else
                    (((s0 &&& 0x07) <<< 18) ||| ((s1 &&& 0x3F) <<< 12)
                      ||| ((s2 &&& 0x3F) <<< 6) ||| (s3 &&& 0x3F), 4)

/-- The function `utf8.ValidString`, walking the string rune by rune; the
first argument counts the bytes of the current rune still to be passed. -/
def ValidString : Nat → Bytes → Bool
  | _, [] => true
  | k + 1, _ :: rest => ValidString k rest
  | 0, b :: rest =>
    let d := DecodeRuneInString ((b :: rest).take 4)
    if d.1 = RuneError ∧ d.2 = 1 then false else ValidString (d.2 - 1) rest

/-! ## `encoding/json`: strings -/

/-- The digits `hex` of `encoding/json`. -/
def hex (n : Nat) : Nat :=
  if n < 10 then 48 + n else 87 + n

/-- The table `htmlSafeSet`: the ASCII bytes written without escaping when
HTML escaping is on: all of 0x20..0x7F except the double quote, the ampersand,
the angle brackets and the backslash. -/
def htmlSafeSet (b : Nat) : Bool :=
  decide (0x20 ≤ b ∧ b < 0x80 ∧ b ≠ 34 ∧ b ≠ 38 ∧ b ≠ 60 ∧ b ≠ 62 ∧ b ≠ 92)

/-- The escape written by `appendString` for an ASCII byte outside
`htmlSafeSet` (the `switch b` of the source). `shortBF` tells whether the
toolchain writes backspace and form feed in short form (Go 1.22 and later) or
as `\u0008` and `\u000c` (earlier releases). -/
def escapeByte (shortBF : Bool) (b : Nat) : Bytes :=
  if b = 92 ∨ b = 34 then [92, b]
  else if b = 8 ∧ shortBF then [92, 98]
  else if b = 12 ∧ shortBF then [92, 102]
  else if b = 10 then [92, 110]
  else if b = 13 then [92, 114]
  else if b = 9 then [92, 116]
  else [92, 117, 48, 48, hex (b >>> 4), hex (b &&& 0xF)]

/-- The loop of `appendString` (with `escapeHTML` set), between the two
quotes. The first argument is the number of bytes of the current rune that
the index has still to pass (`i += size`). -/
def appendStringLoop (shortBF : Bool) : Nat → Bytes → Bytes
  | _, [] => []
  | k + 1, _ :: rest => appendStringLoop shortBF k rest
  | 0, b :: rest =>
    if b < 0x80 then
      if htmlSafeSet b then b :: appendStringLoop shortBF 0 rest
      else escapeByte shortBF b ++ appendStringLoop shortBF 0 rest
    else
      let d := DecodeRuneInString ((b :: rest).take 4)
      if d.1 = RuneError ∧ d.2 = 1 then
        -- the six bytes of the escape of U+FFFD
        [92, 117, 102, 102, 102, 100] ++ appendStringLoop shortBF 0 rest
      else if d.1 = 0x2028 ∨ d.1 = 0x2029 then
        [92, 117, 50, 48, 50, hex (d.1 &&& 0xF)] ++ appendStringLoop shortBF (d.2 - 1) rest
      else
        (b :: rest).take d.2 ++ appendStringLoop shortBF (d.2 - 1) rest

/-- The function `appendString` of `encoding/json`: `src` as a JSON string
literal, appended to `dst`. -/
def appendString (shortBF : Bool) (dst src : Bytes) : Bytes :=
  dst ++ [34] ++ appendStringLoop shortBF 0 src ++ [34]

/-- The function `appendHTMLEscape` of `encoding/json`, by which the struct
encoder prepares `nameEscHTML`: the angle brackets and the ampersand become
`\u00XX`, and U+2028 and U+2029 (E2 80 A8 and E2 80 A9) become `\u2028` and
`\u2029`. The first argument counts bytes of an escaped rune still to skip. -/
def HTMLEscape : Nat → Bytes → Bytes
  | _, [] => []
  | k + 1, _ :: rest => HTMLEscape k rest
  | 0, c :: rest =>
    if c = 60 ∨ c = 62 ∨ c = 38 then
      [92, 117, 48, 48, hex (c >>> 4), hex (c &&& 0xF)] ++ HTMLEscape 0 rest
    else if c = 0xE2 ∧ rest.take 2 = [0x80, 0xA8] then
      [92, 117, 50, 48, 50, hex (0xA8 &&& 0xF)] ++ HTMLEscape 2 rest
    else if c = 0xE2 ∧ rest.take 2 = [0x80, 0xA9] then
      [92, 117, 50, 48, 50, hex (0xA9 &&& 0xF)] ++ HTMLEscape 2 rest
    else c :: HTMLEscape 0 rest

/-! ## `encoding/json`: structs -/

/-- A field value as `encoding/json` sees it: a string, or a value of a type
it has no encoder for (a channel, a function, a complex number), named by
its type. -/
inductive FieldValue where
  | string (s : Bytes)
  | unsupported (typeName : Bytes)
  deriving DecidableEq

/-- One field of a struct value: the name of its `json` tag, the `omitempty`
option and the value. -/
structure Field where
  name : Bytes
  omitEmpty : Bool
  value : FieldValue
  deriving DecidableEq

/-- The function `isEmptyValue` of `encoding/json`, on the values covered. -/
def isEmptyValue : FieldValue → Bool
  | .string s => s.length == 0
  | .unsupported _ => false

/-- The text `nameEscHTML` of a field: the quoted, HTML-escaped name and the
colon. -/
def nameEscHTML (name : Bytes) : Bytes :=
  [34] ++ HTMLEscape 0 name ++ [34, 58]

/-- The field loop of `structEncoder.encode`: `next` is the byte written
before the next field (an opening brace, then a comma), `buf` the buffer so
far. An unsupported field type aborts the encoding with the text of
`UnsupportedTypeError`. -/
def encodeFields (shortBF : Bool) : List Field → Nat → Bytes → Except Bytes (Bytes × Nat)
  | [], next, buf => .ok (buf, next)
  | f :: fs, next, buf =>
    if f.omitEmpty ∧ isEmptyValue f.value then encodeFields shortBF fs next buf
    else
      match f.value with
      | .unsupported t => .error (ascii "json: unsupported type: " ++ t)
      | .string s =>
        encodeFields shortBF fs 44 (appendString shortBF (buf ++ [next] ++ nameEscHTML f.name) s)

/-- The method `structEncoder.encode`: the fields, then the closing brace,
or both braces when no field was written. -/
def structEncoder (shortBF : Bool) (fields : List Field) : Except Bytes Bytes :=
  match encodeFields shortBF fields 123 [] with
  | .error err => .error err
  | .ok (buf, next) => if next = 123 then .ok (buf ++ [123, 125]) else .ok (buf ++ [125])

/-- The function `json.Marshal` on a struct value, as the Go pair
`([]byte, error)`: on an error the slice is nil. -/
def Marshal (shortBF : Bool) (v : List Field) : Bytes × Option Bytes :=
  match structEncoder shortBF v with
  | .error err => ([], some err)
  | .ok buf => (buf, none)

/-! ## `fmt` and `os` -/

/-- The function `fmt.Sprintf` for the verbs this program uses, `%s` and
`%v`, on operands given by their text (a string, or the message of an
error). A verb without operand is written as `%!v(MISSING)` and a percent
sign that ends the format as `%!(NOVERB)`, as `fmt` does; other verbs, and
operands left over, are outside the embedding (the verb is copied, the
operands are dropped). -/
def Sprintf : Bytes → List Bytes → Bytes
  | [], _ => []
  | [c], _ => if c = 37 then ascii "%!(NOVERB)" else [c]
  | c :: v :: fmt, args =>
    if c = 37 ∧ (v = 115 ∨ v = 118) then
      match args with
      | a :: args2 => a ++ Sprintf fmt args2
      | [] => [37, 33, v] ++ ascii "(MISSING)" ++ Sprintf fmt []
    else c :: Sprintf (v :: fmt) args

/-- The process environment: names and values. -/
abbrev Env := List (Bytes × Bytes)

/-- The function `os.Getenv`: the value of the variable, empty when unset. -/
def Getenv (env : Env) (key : Bytes) : Bytes :=
  (env.lookup key).getD []

/-! ## The process: events, deferred calls, exit -/

/-- What the process does that can be seen from outside, in order. -/
inductive Event where
  /-- One call of the standard logger: the flags in force and the text written
  after the header, final newline included. -/
  | logOutput (flags : Nat) (text : Bytes)
  | getTracer (name : Bytes)
  | godotenvLoad
  | exporterNew (project : Bytes)
  | resourceNew
  | newTracerProvider
  | setTracerProvider
  | setTextMapPropagator
  | spanStart (name : Bytes)
  | spanEnd
  | newRequest (method url : Bytes)
  | clientDo
  | bodyClose
  | shutdown
  | exit (code : Nat)
  deriving DecidableEq

/-- The calls `main` defers. -/
inductive Deferred where
  | tpShutdown
  | spanEnd
  deriving DecidableEq

/-- The event of a deferred call when it runs. -/
def Deferred.event : Deferred → Event
  | .tpShutdown => .shutdown
  | .spanEnd => .spanEnd

/-- The state of the process: what happened so far, the deferred calls of
`main` (last deferred first), the environment and the flags of the standard
logger. -/
structure State where
  trace : List Event
  deferred : List Deferred
  env : Env
  logFlags : Nat
  deriving DecidableEq

/-- How a piece of the program ends: it returns a value, or the process has
exited through `os.Exit`. -/
inductive Outcome (α : Type) where
  | ok (a : α)
  | exited (code : Nat)
  deriving DecidableEq

/-- A piece of the program: from a state to the state after it and its
outcome. -/
def Proc (α : Type) : Type := State → State × Outcome α

/-- Sequencing: once the process has exited, nothing more runs. -/
def Proc.bind {α β : Type} (p : Proc α) (f : α → Proc β) : Proc β := fun s =>
  match p s with
  | (s1, .ok a) => f a s1
  | (s1, .exited c) => (s1, .exited c)

instance : Monad Proc where
  pure a := fun s => (s, .ok a)
  bind := Proc.bind

/-- Record an event. -/
def emit (ev : Event) : Proc Unit := fun s =>
  ({ s with trace := s.trace ++ [ev] }, .ok ())

/-- The statement `defer`: push a call on the stack of deferred calls. -/
def defer (d : Deferred) : Proc Unit := fun s =>
  ({ s with deferred := d :: s.deferred }, .ok ())

/-- Read the environment. -/
def getEnv : Proc Env := fun s => (s, .ok s.env)

/-- The function `os.Exit`: the process ends at once; deferred calls are not
run. -/
def osExit {α : Type} (code : Nat) : Proc α := fun s =>
  ({ s with trace := s.trace ++ [.exit code] }, .exited code)

/-- The function `log.SetFlags`. -/
def logSetFlags (flags : Nat) : Proc Unit := fun s =>
  ({ s with logFlags := flags }, .ok ())

/-- The line `Logger.Output` writes for a text: a newline is added when the
text does not end in one. -/
def logLine (text : Bytes) : Bytes :=
  if text.getLast? = some 10 then text else text ++ [10]

/-- The method `Logger.Output`. -/
def logOutputText (text : Bytes) : Proc Unit := fun s =>
  ({ s with trace := s.trace ++ [.logOutput s.logFlags (logLine text)] }, .ok ())

/-- The function `log.Printf`. -/
def logPrintf (format : Bytes) (args : List Bytes) : Proc Unit :=
  logOutputText (Sprintf format args)

/-- The function `log.Fatalf`: `Printf`, then `os.Exit(1)`. -/
def logFatalf {α : Type} (format : Bytes) (args : List Bytes) : Proc α := do
  logOutputText (Sprintf format args)
  osExit 1

/-- The function `log.Fatal` on an error: its message is printed, then
`os.Exit(1)`. -/
def logFatal {α : Type} (err : Bytes) : Proc α := do
  logOutputText err
  osExit 1

/-! ## `main.go` -/

/-- The struct `Entry`. -/
structure Entry where
  Message : Bytes
  Severity : Bytes
  Trace : Bytes
  SpanId : Bytes
  Component : Bytes
  deriving DecidableEq

/-- The fields of `Entry` as `encoding/json` reads them off the struct tags,
in the order of declaration. -/
def Entry.fields (e : Entry) : List Field :=
  [ ⟨ascii "message", false, .string e.Message⟩,
    ⟨ascii "severity", true, .string e.Severity⟩,
    ⟨ascii "logging.googleapis.com/trace", true, .string e.Trace⟩,
    ⟨ascii "logging.googleapis.com/spanId", true, .string e.SpanId⟩,
    ⟨ascii "component", true, .string e.Component⟩ ]

/-- The body of the method `Entry.String`, lines 33 to 42, with the
serializer it calls made a parameter: a serializer takes the struct value
and returns the Go pair `([]byte, error)`. The severity is defaulted, the
serializer is called once, its error (if any) is handed to `log.Printf`, and
its slice is returned as a string. -/
def Entry.StringWith (marshal : List Field → Bytes × Option Bytes) (e : Entry) : Proc Bytes := do
  let e := if e.Severity = [] then { e with Severity := ascii "INFO" } else e
  let r := marshal e.fields
  match r.2 with
  | some err => logPrintf (ascii "json.Marshal: %v") [err]
  | none => pure ()
  pure r.1

/-- The method `Entry.String`: its body, run with `json.Marshal`. -/
def Entry.String (shortBF : Bool) (e : Entry) : Proc Bytes :=
  Entry.StringWith (Marshal shortBF) e

/-- The function `makeTraceIdFmt`, the environment made explicit. -/
def makeTraceIdFmt (env : Env) (traceId : Bytes) : Bytes :=
  Sprintf (ascii "projects/%s/traces/%s") [Getenv env (ascii "PROJECT_ID"), traceId]

/-- What the world outside the program decides in one run. -/
structure World where
  /-- Whether `encoding/json` of the toolchain writes `\b` and `\f`. -/
  shortBF : Bool
  /-- The environment of the process when it starts. -/
  environ : Env
  /-- The outcome of `godotenv.Load`: an error, or the pairs read. -/
  envFile : Except Bytes Env
  /-- The error of `texporter.New`, if any. -/
  exporterErr : Option Bytes
  /-- The error of `resource.New`, if any. -/
  resourceErr : Option Bytes
  /-- The trace id of the span started, as `TraceID.String` gives it. -/
  traceID : Bytes
  /-- The span id of the span started, as `SpanID.String` gives it. -/
  spanID : Bytes
  /-- The error of `http.NewRequestWithContext`, if any. -/
  requestErr : Option Bytes
  /-- The error of `Client.Do`, if any. -/
  doErr : Option Bytes

/-- The function `godotenv.Load` on success: the pairs of the file are set in
the environment, a variable that is set already keeps its value. -/
def setFromFile (file : Env) : Proc Unit := fun s =>
  ({ s with env := s.env ++ file.filter (fun kv => (s.env.lookup kv.1).isNone) }, .ok ())

/-- The function `loadEnvFile`. -/
def loadEnvFile (w : World) : Proc Unit := do
  emit .godotenvLoad
  match w.envFile with
  | .error err => logPrintf (ascii "Not found .env file: %v") [err]
  | .ok file => setFromFile file

/-- The function `initTraceProvider`. -/
def initTraceProvider (w : World) (project : Bytes) : Proc Unit := do
  emit (.exporterNew project)
  match w.exporterErr with
  | some err => logFatalf (ascii "texporter.New: %v") [err]
  | none => pure ()
  emit .resourceNew
  match w.resourceErr with
  | some err => logFatalf (ascii "resource.New: %v") [err]
  | none => pure ()
  emit .newTracerProvider

/-- The body of the function `main`. -/
def main (w : World) : Proc Unit := do
  loadEnvFile w
  let project := Getenv (← getEnv) (ascii "PROJECT_ID")
  let endpoint := Getenv (← getEnv) (ascii "ENDPOINT")
  logSetFlags 0
  initTraceProvider w project
  defer .tpShutdown
  emit .setTracerProvider
  emit .setTextMapPropagator
  emit (.spanStart (ascii "requestServer"))
  defer .spanEnd
  let env ← getEnv
  let line ← Entry.String w.shortBF
    { Severity := ascii "INFO",
      Message := ascii "Request Server",
      Component := Getenv env (ascii "APP_NAME"),
      Trace := makeTraceIdFmt env w.traceID,
      SpanId := w.spanID }
  logOutputText (line ++ [10])
  emit (.newRequest (ascii "GET") endpoint)
  match w.requestErr with
  | some err => logFatal err
  | none => pure ()
  emit .clientDo
  match w.doErr with
  | some err => logFatal err
  | none => pure ()
  emit .bodyClose

/-- The state in which the process starts. The standard logger starts with
the flags `LstdFlags`, which is 3. -/
def startState (w : World) : State :=
  { trace := [], deferred := [], env := w.environ, logFlags := 3 }

/-- One run of the program: the package variable `tracer` is set up, `main`
runs; when `main` returns, its deferred calls run, last deferred first, and
the process exits with status 0. When `main` ends in `os.Exit`, nothing
more happens. -/
def run (w : World) : State :=
  match (emit (.getTracer (ascii "proto-ms-app-client/main")) >>= fun _ => main w) (startState w) with
  | (s, .ok _) =>
    { s with trace := s.trace ++ s.deferred.map Deferred.event ++ [.exit 0], deferred := [] }
  | (s, .exited _) => s

/-! ## Reading JSON back -/

/-- Where the reader stands inside a string: between characters, after a
backslash, or inside the four hex digits of a `\u` escape. -/
inductive RdState where
  | plain
  | esc
  | uni (left : Nat) (acc : Nat)
  deriving DecidableEq

/-- What one byte does to the reader: the string is malformed, the string
is closed, or reading goes on, some bytes of the value being known. -/
inductive RdStep where
  | fail
  | close
  | next (st : RdState) (out : Bytes)
  deriving DecidableEq

/-- The value of a hex digit. -/
def hexVal (b : Nat) : Option Nat :=
  if 48 ≤ b ∧ b ≤ 57 then some (b - 48)
  else if 97 ≤ b ∧ b ≤ 102 then some (b - 87)
  else if 65 ≤ b ∧ b ≤ 70 then some (b - 55)
  else none

/-- The character after a backslash, for the two-character escapes of JSON. -/
def simpleEscape (b : Nat) : Option Nat :=
  if b = 34 then some 34
  else if b = 92 then some 92
  else if b = 47 then some 47
  else if b = 98 then some 8
  else if b = 102 then some 12
  else if b = 110 then some 10
  else if b = 114 then some 13
  else if b = 116 then some 9
  else none

/-- The UTF-8 encoding of a code point of the basic plane. -/
def encodeRune (r : Nat) : Bytes :=
  if r < 0x80 then [r]
  else if r < 0x800 then [0xC0 ||| (r >>> 6), 0x80 ||| (r &&& 0x3F)]
  else [0xE0 ||| (r >>> 12), 0x80 ||| ((r >>> 6) &&& 0x3F), 0x80 ||| (r &&& 0x3F)]

/-- One step of the reader inside a string (RFC 8259, section 7). A `\u`
escape of a surrogate is not covered and makes the reader fail. -/
def rdStep : RdState → Nat → RdStep
  | .plain, b =>
    if b = 34 then .close
    else if b = 92 then .next .esc []
    else if b < 0x20 then .fail
    else .next .plain [b]
  | .esc, b =>
    if b = 117 then .next (.uni 4 0) []
    else
      match simpleEscape b with
      | some c => .next .plain [c]
      | none => .fail
  | .uni left acc, b =>
    match hexVal b with
    | none => .fail
    | some h =>
      if left ≤ 1 then
        if 0xD800 ≤ acc * 16 + h ∧ acc * 16 + h < 0xE000 then .fail
        else .next .plain (encodeRune (acc * 16 + h))
      else .next (.uni (left - 1) (acc * 16 + h)) []

/-- Read a string from after its opening quote: the value (escapes resolved)
and what follows the closing quote. -/
def readChars : RdState → Bytes → Option (Bytes × Bytes)
  | _, [] => none
  | st, b :: rest =>
    match rdStep st b with
    | .fail => none
    | .close => some ([], rest)
    | .next st2 out => (readChars st2 rest).map fun p => (out ++ p.1, p.2)

/-- Read the members of an object, from the opening quote of a key to the
closing brace, which must end the text. Every value must be a string. The
first argument bounds the number of members. -/
def readMembers : Nat → Bytes → Option (List (Bytes × Bytes))
  | 0, _ => none
  | fuel + 1, s =>
    match s with
    | [] => none
    | q :: s1 =>
      if q ≠ 34 then none
      else
        match readChars .plain s1 with
        | some (key, c :: q2 :: s2) =>
          if c ≠ 58 ∨ q2 ≠ 34 then none
          else
            match readChars .plain s2 with
            | some (val, [d]) => if d = 125 then some [(key, val)] else none
            | some (val, d :: s3) =>
              if d = 44 then (readMembers fuel s3).map fun m => (key, val) :: m else none
            | _ => none
        | _ => none

/-- Read a compact JSON object whose values are strings: its members, keys
and values with escapes resolved, in the order of the text. -/
def readObject (s : Bytes) : Option (List (Bytes × Bytes)) :=
  match s with
  | [] => none
  | b :: s1 =>
    if b ≠ 123 then none
    else if s1 = [125] then some []
    else readMembers s.length s1

/-- The string under a key of a JSON text: `none` when the text is not an
object the reader accepts, `some none` when it is such an object without
the key, `some (some v)` when the key is there with the value `v`. -/
def jsonField (doc key : Bytes) : Option (Option Bytes) :=
  (readObject doc).map fun m => m.lookup key

/-! ## What the statements are written with -/

/-- The value `encoding/json` coerces a string to: every byte that does not
start a valid UTF-8 encoding is replaced by U+FFFD (EF BF BD). -/
def coerceUTF8 : Nat → Bytes → Bytes
  | _, [] => []
  | k + 1, b :: rest => b :: coerceUTF8 k rest
  | 0, b :: rest =>
    let d := DecodeRuneInString ((b :: rest).take 4)
    if d.1 = RuneError ∧ d.2 = 1 then [0xEF, 0xBF, 0xBD] ++ coerceUTF8 0 rest
    else b :: coerceUTF8 (d.2 - 1) rest

/-- What a successful decoding of a rune of several bytes at the head of
`b :: rest` comes with: the width is at least 2, the bytes of the rune are
all 0x80 or more, and the runes U+2028 and U+2029 come from their three
bytes. -/
def WideRune (b : Nat) (rest : Bytes) : Prop :=
  2 ≤ (DecodeRuneInString ((b :: rest).take 4)).2
    ∧ (∀ x ∈ (b :: rest).take (DecodeRuneInString ((b :: rest).take 4)).2, 128 ≤ x)
    ∧ ((DecodeRuneInString ((b :: rest).take 4)).1 = 0x2028 →
        (DecodeRuneInString ((b :: rest).take 4)).2 = 3
          ∧ (b :: rest).take 3 = [0xE2, 0x80, 0xA8])
    ∧ ((DecodeRuneInString ((b :: rest).take 4)).1 = 0x2029 →
        (DecodeRuneInString ((b :: rest).take 4)).2 = 3
          ∧ (b :: rest).take 3 = [0xE2, 0x80, 0xA9])

/-- The reader run over a chunk of bytes none of which closes the string:
the state reached and the bytes of the value found. -/
def runChunk : RdState → Bytes → Option (RdState × Bytes)
  | st, [] => some (st, [])
  | st, b :: rest =>
    match rdStep st b with
    | .next st2 out => (runChunk st2 rest).map fun p => (p.1, out ++ p.2)
    | _ => none

/-- The members the struct encoder writes for a struct whose fields are
strings: name and value of every field that `omitempty` does not drop. -/
def writtenMembers : List Field → List (Bytes × Bytes)
  | [] => []
  | f :: fs =>
    match f.value with
    | .string s =>
      if f.omitEmpty ∧ s = [] then writtenMembers fs else (f.name, s) :: writtenMembers fs
    | .unsupported _ => writtenMembers fs

/-- The text of a list of members as the struct encoder writes it: before
each member the separator (`sep` for the first, a comma for the others),
then the quoted name, the colon and the quoted value. -/
def membersText (shortBF : Bool) : Nat → List (Bytes × Bytes) → Bytes
  | _, [] => []
  | sep, (k, v) :: m =>
    appendString shortBF ([sep] ++ nameEscHTML k) v ++ membersText shortBF 44 m

/-- A field name that holds nothing to escape: `HTMLEscape` leaves it as it
is and the reader reads it back as it is. -/
def CleanName (k : Bytes) : Prop :=
  HTMLEscape 0 k = k ∧ runChunk .plain k = some (.plain, k)

/-- The members of the JSON object of an entry, name and value as given, in
the order of the text: `message` always, `severity` with its default, and
each of the other three fields when it is not empty. -/
def Entry.members (e : Entry) : List (Bytes × Bytes) :=
  [(ascii "message", e.Message),
    (ascii "severity", if e.Severity = [] then ascii "INFO" else e.Severity)]
    ++ (if e.Trace = [] then [] else [(ascii "logging.googleapis.com/trace", e.Trace)])
    ++ (if e.SpanId = [] then [] else [(ascii "logging.googleapis.com/spanId", e.SpanId)])
    ++ (if e.Component = [] then [] else [(ascii "component", e.Component)])

/-! ## Concrete states and runs -/

/-- A state with nothing in it, for stating what a piece of program does on
its own. -/
def idle : State :=
  { trace := [], deferred := [], env := [], logFlags := 0 }

/-- A run in which everything succeeds: the variables are set, there is no
`.env` file, the server answers. -/
def servedWorld : World :=
  { shortBF := true,
    environ := [(ascii "PROJECT_ID", ascii "p1"), (ascii "ENDPOINT", ascii "http://127.0.0.1:8080/"),
      (ascii "APP_NAME", ascii "sample")],
    envFile := .error (ascii "open .env: no such file or directory"),
    exporterErr := none,
    resourceErr := none,
    traceID := ascii "4bf92f3577b34da6a3ce929d0e0e4736",
    spanID := ascii "00f067aa0ba902b7",
    requestErr := none,
    doErr := none }

/-- The same run with nothing listening at the endpoint: `Client.Do` returns
an error. -/
def refusedWorld : World :=
  { servedWorld with
    doErr := some (ascii "Get \"http://127.0.0.1:8080/\": dial tcp 127.0.0.1:8080: connect: connection refused") }

/-- The same run with `ENDPOINT` set to a text that is no URL:
`http.NewRequestWithContext` returns an error. -/
def badUrlWorld : World :=
  { servedWorld with
    environ := [(ascii "PROJECT_ID", ascii "p1"), (ascii "ENDPOINT", ascii "://"),
      (ascii "APP_NAME", ascii "sample")],
    requestErr := some (ascii "parse \"://\": missing protocol scheme") }

end TraceClient

/-! # Theorems -/

namespace TraceClient

/-! ## Decoding of runes -/

theorem rune2_arith (a b : Nat) :
    ((a &&& 0x1F) <<< 6) ||| (b &&& 0x3F) = (a % 32) * 64 + b % 64 := by
  have h1 : a &&& 0x1F = a % 32 := Nat.and_pow_two_sub_one_eq_mod a 5
  have h2 : b &&& 0x3F = b % 64 := Nat.and_pow_two_sub_one_eq_mod b 6
  rw [h1, h2, Nat.shiftLeft_eq]
  have := Nat.mul_add_lt_is_or (i := 6) (b := b % 64) (Nat.mod_lt _ (by norm_num)) (a % 32)
  rw [Nat.mul_comm (a % 32) (2 ^ 6), ← this]

theorem rune3_arith (a b c : Nat) :
    ((a &&& 0x0F) <<< 12) ||| ((b &&& 0x3F) <<< 6) ||| (c &&& 0x3F)
      = (a % 16) * 4096 + (b % 64) * 64 + c % 64 := by
  have h1 : a &&& 0x0F = a % 16 := Nat.and_pow_two_sub_one_eq_mod a 4
  have h2 : b &&& 0x3F = b % 64 := Nat.and_pow_two_sub_one_eq_mod b 6
  have h3 : c &&& 0x3F = c % 64 := Nat.and_pow_two_sub_one_eq_mod c 6
  rw [h1, h2, h3, Nat.shiftLeft_eq, Nat.shiftLeft_eq]
  have e1 := Nat.mul_add_lt_is_or (i := 12) (b := (b % 64) * 2 ^ 6)
    (by have := Nat.mod_lt b (show 64 > 0 by norm_num); omega) (a % 16)
  rw [Nat.mul_comm (a % 16) (2 ^ 12), ← e1]
  have e2 := Nat.mul_add_lt_is_or (i := 6) (b := c % 64) (Nat.mod_lt _ (by norm_num))
    ((a % 16) * 64 + b % 64)
  have e3 : 2 ^ 12 * (a % 16) + b % 64 * 2 ^ 6 = 2 ^ 6 * ((a % 16) * 64 + b % 64) := by
    norm_num; ring
  rw [e3, ← e2]
  norm_num; ring

theorem rune4_arith (a b c d : Nat) :
    ((a &&& 0x07) <<< 18) ||| ((b &&& 0x3F) <<< 12) ||| ((c &&& 0x3F) <<< 6) ||| (d &&& 0x3F)
      = (a % 8) * 262144 + (b % 64) * 4096 + (c % 64) * 64 + d % 64 := by
  have h1 : a &&& 0x07 = a % 8 := Nat.and_pow_two_sub_one_eq_mod a 3
  have h2 : b &&& 0x3F = b % 64 := Nat.and_pow_two_sub_one_eq_mod b 6
  have h3 : c &&& 0x3F = c % 64 := Nat.and_pow_two_sub_one_eq_mod c 6
  have h4 : d &&& 0x3F = d % 64 := Nat.and_pow_two_sub_one_eq_mod d 6
  rw [h1, h2, h3, h4, Nat.shiftLeft_eq, Nat.shiftLeft_eq, Nat.shiftLeft_eq]
  have hb := Nat.mod_lt b (show 64 > 0 by norm_num)
  have hc := Nat.mod_lt c (show 64 > 0 by norm_num)
  have hd := Nat.mod_lt d (show 64 > 0 by norm_num)
  have e1 := Nat.mul_add_lt_is_or (i := 18) (b := (b % 64) * 2 ^ 12) (by omega) (a % 8)
  rw [Nat.mul_comm (a % 8) (2 ^ 18), ← e1]
  have e2 := Nat.mul_add_lt_is_or (i := 12) (b := (c % 64) * 2 ^ 6) (by omega)
    ((a % 8) * 64 + b % 64)
  have e3 : 2 ^ 18 * (a % 8) + b % 64 * 2 ^ 12 = 2 ^ 12 * ((a % 8) * 64 + b % 64) := by
    norm_num; ring
  rw [e3, ← e2]
  have e4 := Nat.mul_add_lt_is_or (i := 6) (b := d % 64) (by omega)
    (((a % 8) * 64 + b % 64) * 64 + c % 64)
  have e5 : 2 ^ 12 * ((a % 8) * 64 + b % 64) + c % 64 * 2 ^ 6
      = 2 ^ 6 * (((a % 8) * 64 + b % 64) * 64 + c % 64) := by
    norm_num; ring
  rw [e5, ← e4]
  norm_num; ring

theorem first_cases (b : Nat) (hb : 0x80 ≤ b) :
    first b = 0xF1 ∨ (first b = 0x02 ∧ 0xC2 ≤ b ∧ b < 0xE0) ∨ (first b = 0x13 ∧ b = 0xE0)
      ∨ (first b = 0x03 ∧ 0xE1 ≤ b ∧ b < 0xF0 ∧ b ≠ 0xED) ∨ (first b = 0x23 ∧ b = 0xED)
      ∨ (first b = 0x34 ∧ b = 0xF0) ∨ (first b = 0x04 ∧ 0xF1 ≤ b ∧ b < 0xF4)
      ∨ (first b = 0x44 ∧ b = 0xF4) := by
  unfold first
  by_cases c1 : b < 128
  · omega
  by_cases c2 : b < 194
  · simp [c1, c2]
  by_cases c3 : b < 224
  · simp [c1, c2, c3]; omega
  by_cases c4 : b = 224
  · simp [c4]
  by_cases c5 : b < 237
  · simp [c1, c2, c3, c4, c5]; omega
  by_cases c6 : b = 237
  · simp [c6]
  by_cases c7 : b < 240
  · simp [c1, c2, c3, c4, c5, c6, c7]; omega
  by_cases c8 : b = 240
  · simp [c8]
  by_cases c9 : b < 244
  · simp [c1, c2, c3, c4, c5, c6, c7, c8, c9]; omega
  by_cases c10 : b = 244
  · simp [c10]
  simp [c1, c2, c3, c4, c5, c6, c7, c8, c9, c10]

theorem lowBits :
    (2 &&& 7 = 2) ∧ (19 &&& 7 = 3) ∧ (3 &&& 7 = 3) ∧ (35 &&& 7 = 3) ∧ (52 &&& 7 = 4)
      ∧ (4 &&& 7 = 4) ∧ (68 &&& 7 = 4) := ⟨rfl, rfl, rfl, rfl, rfl, rfl, rfl⟩

theorem highBits :
    (2 >>> 4 = 0) ∧ (19 >>> 4 = 1) ∧ (3 >>> 4 = 0) ∧ (35 >>> 4 = 2) ∧ (52 >>> 4 = 3)
      ∧ (4 >>> 4 = 0) ∧ (68 >>> 4 = 4) := ⟨rfl, rfl, rfl, rfl, rfl, rfl, rfl⟩

theorem acceptRanges_vals :
    acceptRanges 0 = (128, 191) ∧ acceptRanges 1 = (160, 191) ∧ acceptRanges 2 = (128, 159)
      ∧ acceptRanges 3 = (144, 191) ∧ acceptRanges 4 = (128, 143) := by
  simp [acceptRanges]

set_option maxHeartbeats 400000 in
theorem decode_size2 (b : Nat) (rest : Bytes) (h : first b = 2) :
    DecodeRuneInString ((b :: rest).take 4) = (RuneError, 1)
      ∨ ∃ s1 t, rest = s1 :: t ∧ 128 ≤ s1
          ∧ DecodeRuneInString ((b :: rest).take 4) = ((b % 32) * 64 + s1 % 64, 2) := by
  rcases rest with _ | ⟨s1, t⟩
  · left
    simp [DecodeRuneInString, h, lowBits]
  · by_cases hs : s1 < 128 ∨ 191 < s1
    · left
      simp [DecodeRuneInString, h, lowBits, highBits, acceptRanges_vals, hs]
    · right
      refine ⟨s1, t, rfl, by omega, ?_⟩
      simp [DecodeRuneInString, h, lowBits, highBits, acceptRanges_vals, hs, rune2_arith]

set_option maxHeartbeats 800000 in
theorem decode_size3 (b lo hi x : Nat) (rest : Bytes) (h : first b = x)
    (hx : x &&& 7 = 3) (hr : acceptRanges (x >>> 4) = (lo, hi)) (hx2 : x < 240) :
    DecodeRuneInString ((b :: rest).take 4) = (RuneError, 1)
      ∨ ∃ s1 s2 t, rest = s1 :: s2 :: t ∧ lo ≤ s1 ∧ s1 ≤ hi ∧ 128 ≤ s2 ∧ s2 ≤ 191
          ∧ DecodeRuneInString ((b :: rest).take 4)
              = ((b % 16) * 4096 + (s1 % 64) * 64 + s2 % 64, 3) := by
  have hx3 : ¬ 240 ≤ x := by omega
  rcases rest with _ | ⟨s1, _ | ⟨s2, t⟩⟩
  · left
    simp [DecodeRuneInString, h, hx, hx3]
  · left
    simp [DecodeRuneInString, h, hx, hx3]
  · by_cases hs : s1 < lo ∨ hi < s1
    · left
      simp [DecodeRuneInString, h, hx, hr, hs, hx3]
    · by_cases hs2 : s2 < 128 ∨ 191 < s2
      · left
        simp [DecodeRuneInString, h, hx, hr, hs, hs2, hx3]
      · right
        refine ⟨s1, s2, t, rfl, by omega, by omega, by omega, by omega, ?_⟩
        simp [DecodeRuneInString, h, hx, hr, hs, hs2, rune3_arith, hx3]

set_option maxHeartbeats 800000 in
theorem decode_size4 (b lo hi x : Nat) (rest : Bytes) (h : first b = x)
    (hx : x &&& 7 = 4) (hr : acceptRanges (x >>> 4) = (lo, hi)) (hx2 : x < 240) :
    DecodeRuneInString ((b :: rest).take 4) = (RuneError, 1)
      ∨ ∃ s1 s2 s3 t, rest = s1 :: s2 :: s3 :: t ∧ lo ≤ s1 ∧ s1 ≤ hi ∧ 128 ≤ s2 ∧ s2 ≤ 191
          ∧ 128 ≤ s3 ∧ s3 ≤ 191
          ∧ DecodeRuneInString ((b :: rest).take 4)
              = ((b % 8) * 262144 + (s1 % 64) * 4096 + (s2 % 64) * 64 + s3 % 64, 4) := by
  have hx3 : ¬ 240 ≤ x := by omega
  rcases rest with _ | ⟨s1, _ | ⟨s2, _ | ⟨s3, t⟩⟩⟩
  · left
    simp [DecodeRuneInString, h, hx, hx3]
  · left
    simp [DecodeRuneInString, h, hx, hx3]
  · left
    simp [DecodeRuneInString, h, hx, hx3]
  · by_cases hs : s1 < lo ∨ hi < s1
    · left
      simp [DecodeRuneInString, h, hx, hr, hs, hx3]
    · by_cases hs2 : s2 < 128 ∨ 191 < s2
      · left
        simp [DecodeRuneInString, h, hx, hr, hs, hs2, hx3]
      · by_cases hs3 : s3 < 128 ∨ 191 < s3
        · left
          simp [DecodeRuneInString, h, hx, hr, hs, hs2, hs3, hx3]
        · right
          refine ⟨s1, s2, s3, t, rfl, by omega, by omega, by omega, by omega, by omega,
            by omega, ?_⟩
          simp [DecodeRuneInString, h, hx, hr, hs, hs2, hs3, rune4_arith, hx3]

theorem decode_wide3 (b lo hi x : Nat) (rest : Bytes) (h : first b = x)
    (hx : x &&& 7 = 3) (hr : acceptRanges (x >>> 4) = (lo, hi)) (hx2 : x < 240)
    (hlo : 128 ≤ lo) (hhi : hi ≤ 191) (b1 : 224 ≤ b) (b2 : b < 240) :
    DecodeRuneInString ((b :: rest).take 4) = (RuneError, 1) ∨ WideRune b rest := by
  rcases decode_size3 b lo hi x rest h hx hr hx2 with e | ⟨s1, s2, t, rfl, a1, a2, a3, a4, e⟩
  · exact Or.inl e
  · right
    unfold WideRune
    rw [e]
    refine ⟨by simp, ?_, ?_, ?_⟩
    · simp; omega
    · intro hv
      simp at hv
      simp; omega
    · intro hv
      simp at hv
      simp; omega

theorem decode_wide4 (b lo hi x : Nat) (rest : Bytes) (h : first b = x)
    (hx : x &&& 7 = 4) (hr : acceptRanges (x >>> 4) = (lo, hi)) (hx2 : x < 240)
    (hlo : 128 ≤ lo) (hhi : hi ≤ 191) (b1 : 240 ≤ b) (b2 : b < 245) (b3 : b = 240 → 144 ≤ lo) :
    DecodeRuneInString ((b :: rest).take 4) = (RuneError, 1) ∨ WideRune b rest := by
  rcases decode_size4 b lo hi x rest h hx hr hx2 with
    e | ⟨s1, s2, s3, t, rfl, a1, a2, a3, a4, a5, a6, e⟩
  · exact Or.inl e
  · right
    unfold WideRune
    rw [e]
    refine ⟨by simp, ?_, ?_, ?_⟩
    · simp; omega
    · intro hv
      simp at hv
      omega
    · intro hv
      simp at hv
      omega

theorem decode_spec (b : Nat) (rest : Bytes) (hb : 128 ≤ b) :
    DecodeRuneInString ((b :: rest).take 4) = (RuneError, 1) ∨ WideRune b rest := by
  rcases first_cases b hb with h | ⟨h, h1, h2⟩ | ⟨h, h1⟩ | ⟨h, h1, h2, h3⟩ | ⟨h, h1⟩ | ⟨h, h1⟩
    | ⟨h, h1, h2⟩ | ⟨h, h1⟩
  · left
    cases rest <;> simp [DecodeRuneInString, h]
  · rcases decode_size2 b rest h with e | ⟨s1, t, rfl, a1, e⟩
    · exact Or.inl e
    · right
      unfold WideRune
      rw [e]
      refine ⟨by simp, ?_, ?_, ?_⟩
      · simp; omega
      · intro hv
        simp at hv
        omega
      · intro hv
        simp at hv
        omega
  · exact decode_wide3 b 160 191 19 rest h rfl (by simp [acceptRanges]) (by omega) (by omega)
      (by omega) (by omega) (by omega)
  · exact decode_wide3 b 128 191 3 rest h rfl (by simp [acceptRanges]) (by omega) (by omega)
      (by omega) (by omega) (by omega)
  · exact decode_wide3 b 128 159 35 rest h rfl (by simp [acceptRanges]) (by omega) (by omega)
      (by omega) (by omega) (by omega)
  · exact decode_wide4 b 144 191 52 rest h rfl (by simp [acceptRanges]) (by omega) (by omega)
      (by omega) (by omega) (by omega) (by omega)
  · exact decode_wide4 b 128 191 4 rest h rfl (by simp [acceptRanges]) (by omega) (by omega)
      (by omega) (by omega) (by omega) (by omega)
  · exact decode_wide4 b 128 143 68 rest h rfl (by simp [acceptRanges]) (by omega) (by omega)
      (by omega) (by omega) (by omega) (by omega)

theorem decode_ascii (b : Nat) (l : Bytes) (hb : b < 128) :
    DecodeRuneInString (b :: l) = (b, 1) := by
  have h : first b = 240 := by simp [first, hb]
  simp [DecodeRuneInString, h]

/-! ## Passing the bytes of a rune -/

theorem appendStringLoop_skip (bf : Bool) (k : Nat) (s : Bytes) :
    appendStringLoop bf k s = appendStringLoop bf 0 (s.drop k) := by
  induction k generalizing s with
  | zero => simp
  | succ k ih =>
    cases s with
    | nil => simp [appendStringLoop]
    | cons b rest => simp [appendStringLoop, ih rest]

theorem coerceUTF8_skip (k : Nat) (s : Bytes) :
    coerceUTF8 k s = s.take k ++ coerceUTF8 0 (s.drop k) := by
  induction k generalizing s with
  | zero => simp
  | succ k ih =>
    cases s with
    | nil => simp [coerceUTF8]
    | cons b rest => simp [coerceUTF8, ih rest]

theorem ValidString_skip (k : Nat) (s : Bytes) :
    ValidString k s = ValidString 0 (s.drop k) := by
  induction k generalizing s with
  | zero => simp
  | succ k ih =>
    cases s with
    | nil => simp [ValidString]
    | cons b rest => simp [ValidString, ih rest]

theorem coerceUTF8_valid :
    ∀ (n : Nat) (s : Bytes), s.length ≤ n → ValidString 0 s = true → coerceUTF8 0 s = s := by
  intro n
  induction n with
  | zero =>
    intro s hs _
    have : s = [] := List.length_eq_zero.mp (by omega)
    subst this
    rfl
  | succ m ih =>
    intro s hs hv
    cases s with
    | nil => rfl
    | cons b rest =>
      have hrest : rest.length ≤ m := by simpa using hs
      simp only [ValidString] at hv
      by_cases herr : (DecodeRuneInString ((b :: rest).take 4)).1 = RuneError
          ∧ (DecodeRuneInString ((b :: rest).take 4)).2 = 1
      · rw [if_pos herr] at hv
        exact absurd hv (by simp)
      · simp only [herr, if_false] at hv
        rw [ValidString_skip] at hv
        simp only [coerceUTF8, herr, if_false]
        rw [coerceUTF8_skip, ih _ (by simp; omega) hv]
        simp

theorem coerceUTF8_ne_nil (s : Bytes) (h : s ≠ []) : coerceUTF8 0 s ≠ [] := by
  cases s with
  | nil => exact absurd rfl h
  | cons b rest =>
    simp only [coerceUTF8]
    split_ifs <;> simp

/-! ## Reading back what `appendString` writes -/

theorem readChars_chunk (xs : Bytes) :
    ∀ (st st2 : RdState) (out t : Bytes), runChunk st xs = some (st2, out) →
      readChars st (xs ++ t) = (readChars st2 t).map fun p => (out ++ p.1, p.2) := by
  induction xs with
  | nil =>
    intro st st2 out t h
    simp [runChunk] at h
    obtain ⟨rfl, rfl⟩ := h
    simp
  | cons b rest ih =>
    intro st st2 out t h
    simp only [runChunk] at h
    simp only [List.cons_append, readChars]
    cases hstep : rdStep st b with
    | fail => simp [hstep] at h
    | close => simp [hstep] at h
    | next st3 o =>
      simp only [hstep] at h
      cases hr : runChunk st3 rest with
      | none => simp [hr] at h
      | some p =>
        obtain ⟨a1, a2⟩ := p
        simp only [hr, Option.map_some, Option.some.injEq, Prod.mk.injEq] at h
        obtain ⟨rfl, rfl⟩ := h
        have e := ih st3 a1 a2 t hr
        simp only [List.append_eq] at e ⊢
        rw [e]
        cases readChars a1 t <;> simp

set_option maxRecDepth 100000 in
theorem escapeByte_reads :
    ∀ bf : Bool, ∀ b < 128, htmlSafeSet b = false →
      runChunk .plain (escapeByte bf b) = some (.plain, [b]) := by
  decide

set_option maxRecDepth 100000 in
theorem escapeByte_printable :
    ∀ bf : Bool, ∀ b < 128, ∀ x ∈ escapeByte bf b, 32 ≤ x ∧ x < 128 := by
  decide

theorem runChunk_high (xs : Bytes) (h : ∀ x ∈ xs, 128 ≤ x) :
    runChunk .plain xs = some (.plain, xs) := by
  induction xs with
  | nil => rfl
  | cons b rest ih =>
    have hb : 128 ≤ b := h b (by simp)
    have h1 : ¬ b = 34 := by omega
    have h2 : ¬ b = 92 := by omega
    have h3 : ¬ b < 32 := by omega
    simp [runChunk, rdStep, h1, h2, h3, ih (fun x hx => h x (by simp [hx]))]

theorem runChunk_safe (b : Nat) (h : htmlSafeSet b = true) :
    runChunk .plain [b] = some (.plain, [b]) := by
  simp only [htmlSafeSet, decide_eq_true_eq] at h
  have h1 : ¬ b = 34 := by omega
  have h2 : ¬ b = 92 := by omega
  have h3 : ¬ b < 32 := by omega
  simp [runChunk, rdStep, h1, h2, h3]

theorem runChunk_escapes :
    runChunk .plain [92, 117, 102, 102, 102, 100] = some (.plain, [0xEF, 0xBF, 0xBD])
      ∧ runChunk .plain [92, 117, 50, 48, 50, hex (0x2028 &&& 0xF)]
          = some (.plain, [0xE2, 0x80, 0xA8])
      ∧ runChunk .plain [92, 117, 50, 48, 50, hex (0x2029 &&& 0xF)]
          = some (.plain, [0xE2, 0x80, 0xA9]) := by
  decide

theorem readChars_appendStringLoop (bf : Bool) :
    ∀ (n : Nat) (s : Bytes), s.length ≤ n → ∀ t : Bytes,
      readChars .plain (appendStringLoop bf 0 s ++ 34 :: t) = some (coerceUTF8 0 s, t) := by
  intro n
  induction n with
  | zero =>
    intro s hs t
    have : s = [] := List.length_eq_zero.mp (by omega)
    subst this
    simp [appendStringLoop, coerceUTF8, readChars, rdStep]
  | succ m ih =>
    intro s hs t
    cases s with
    | nil => simp [appendStringLoop, coerceUTF8, readChars, rdStep]
    | cons b rest =>
      have hrest : rest.length ≤ m := by simpa using hs
      by_cases hb : b < 128
      · have hd : DecodeRuneInString ((b :: rest).take 4) = (b, 1) := by
          simpa using decode_ascii b (rest.take 3) hb
        have hne : ¬ (b = RuneError) := by simp [RuneError]; omega
        have hc : coerceUTF8 0 (b :: rest) = b :: coerceUTF8 0 rest := by
          simp only [coerceUTF8, hd]
          simp [hne]
        by_cases hsafe : htmlSafeSet b = true
        · have e : appendStringLoop bf 0 (b :: rest) = [b] ++ appendStringLoop bf 0 rest := by
            simp [appendStringLoop, hb, hsafe]
          rw [e, List.append_assoc, readChars_chunk _ _ _ _ _ (runChunk_safe b hsafe),
            ih rest hrest t, hc]
          simp
        · have hsafe2 : htmlSafeSet b = false := by simpa using hsafe
          have e : appendStringLoop bf 0 (b :: rest)
              = escapeByte bf b ++ appendStringLoop bf 0 rest := by
            simp [appendStringLoop, hb, hsafe2]
          rw [e, List.append_assoc, readChars_chunk _ _ _ _ _ (escapeByte_reads bf b hb hsafe2),
            ih rest hrest t, hc]
          simp
      · have hb2 : 128 ≤ b := by omega
        rcases decode_spec b rest hb2 with hd | ⟨w1, w2, w3, w4⟩
        · have e : appendStringLoop bf 0 (b :: rest)
              = [92, 117, 102, 102, 102, 100] ++ appendStringLoop bf 0 rest := by
            simp only [appendStringLoop, hb, hd]
            simp
          have hc : coerceUTF8 0 (b :: rest) = [0xEF, 0xBF, 0xBD] ++ coerceUTF8 0 rest := by
            simp only [coerceUTF8, hd]
            simp
          rw [e, List.append_assoc, readChars_chunk _ _ _ _ _ runChunk_escapes.1,
            ih rest hrest t, hc]
          simp
        · have hnerr : ¬ ((DecodeRuneInString ((b :: rest).take 4)).1 = RuneError
              ∧ (DecodeRuneInString ((b :: rest).take 4)).2 = 1) := by
            intro h
            omega
          have hdrop : (rest.drop ((DecodeRuneInString ((b :: rest).take 4)).2 - 1)).length ≤ m := by
            simp; omega
          have hc : coerceUTF8 0 (b :: rest)
              = (b :: rest).take (DecodeRuneInString ((b :: rest).take 4)).2
                ++ coerceUTF8 0 (rest.drop ((DecodeRuneInString ((b :: rest).take 4)).2 - 1)) := by
            have : (b :: rest).take (DecodeRuneInString ((b :: rest).take 4)).2
                = b :: rest.take ((DecodeRuneInString ((b :: rest).take 4)).2 - 1) := by
              obtain ⟨k, hk⟩ : ∃ k, (DecodeRuneInString ((b :: rest).take 4)).2 = k + 1 :=
                ⟨(DecodeRuneInString ((b :: rest).take 4)).2 - 1, by omega⟩
              rw [hk]
              simp
            rw [this]
            simp only [coerceUTF8, hnerr, if_false]
            rw [coerceUTF8_skip]
            simp
          by_cases h28 : (DecodeRuneInString ((b :: rest).take 4)).1 = 0x2028
          · obtain ⟨z1, z2⟩ := w3 h28
            have e : appendStringLoop bf 0 (b :: rest)
                = [92, 117, 50, 48, 50, hex (0x2028 &&& 0xF)]
                  ++ appendStringLoop bf 0 (rest.drop 2) := by
              simp only [appendStringLoop, hb, if_false, h28, true_or, if_true, z1]
              rw [if_neg (by simp [RuneError]), appendStringLoop_skip]
            rw [z1] at hc hdrop
            rw [z2] at hc
            rw [e, List.append_assoc, readChars_chunk _ _ _ _ _ runChunk_escapes.2.1,
              ih _ hdrop t, hc]
            simp
          · by_cases h29 : (DecodeRuneInString ((b :: rest).take 4)).1 = 0x2029
            · obtain ⟨z1, z2⟩ := w4 h29
              have e : appendStringLoop bf 0 (b :: rest)
                  = [92, 117, 50, 48, 50, hex (0x2029 &&& 0xF)]
                    ++ appendStringLoop bf 0 (rest.drop 2) := by
                simp only [appendStringLoop, hb, if_false, h29, or_true, if_true, z1]
                rw [if_neg (by simp [RuneError]), appendStringLoop_skip]
              rw [z1] at hc hdrop
              rw [z2] at hc
              rw [e, List.append_assoc, readChars_chunk _ _ _ _ _ runChunk_escapes.2.2,
                ih _ hdrop t, hc]
              simp
            · have e : appendStringLoop bf 0 (b :: rest)
                  = (b :: rest).take (DecodeRuneInString ((b :: rest).take 4)).2
                    ++ appendStringLoop bf 0
                        (rest.drop ((DecodeRuneInString ((b :: rest).take 4)).2 - 1)) := by
                simp only [appendStringLoop, hb, hnerr, if_false, h28, h29, or_self]
                rw [appendStringLoop_skip]
              rw [e, List.append_assoc, readChars_chunk _ _ _ _ _ (runChunk_high _ w2),
                ih _ hdrop t, hc]
              simp

theorem appendStringLoop_printable (bf : Bool) :
    ∀ (n : Nat) (s : Bytes), s.length ≤ n → ∀ x ∈ appendStringLoop bf 0 s, 32 ≤ x := by
  intro n
  induction n with
  | zero =>
    intro s hs x hx
    have : s = [] := List.length_eq_zero.mp (by omega)
    subst this
    simp [appendStringLoop] at hx
  | succ m ih =>
    intro s hs x hx
    cases s with
    | nil => simp [appendStringLoop] at hx
    | cons b rest =>
      have hrest : rest.length ≤ m := by simpa using hs
      simp only [appendStringLoop] at hx
      by_cases hb : b < 128
      · simp only [hb, if_true] at hx
        by_cases hsafe : htmlSafeSet b = true
        · simp only [hsafe, if_true, List.mem_cons] at hx
          rcases hx with rfl | hx
          · simp only [htmlSafeSet, decide_eq_true_eq] at hsafe
            omega
          · exact ih rest hrest x hx
        · have hsafe2 : htmlSafeSet b = false := by simpa using hsafe
          simp only [hsafe2, Bool.false_eq_true, if_false, List.mem_append] at hx
          rcases hx with hx | hx
          · exact (escapeByte_printable bf b hb x hx).1
          · exact ih rest hrest x hx
      · simp only [hb, if_false] at hx
        have hdrop : (rest.drop ((DecodeRuneInString ((b :: rest).take 4)).2 - 1)).length ≤ m := by
          simp; omega
        rcases decode_spec b rest (by omega) with hd | ⟨w1, w2, w3, w4⟩
        · simp only [hd, and_self, if_true, List.mem_append] at hx
          rcases hx with hx | hx
          · simp at hx
            omega
          · exact ih rest hrest x hx
        · have hnerr : ¬ ((DecodeRuneInString ((b :: rest).take 4)).1 = RuneError
              ∧ (DecodeRuneInString ((b :: rest).take 4)).2 = 1) := by
            intro h
            omega
          simp only [hnerr, if_false] at hx
          split_ifs at hx with h2
          · simp only [List.mem_append] at hx
            rcases hx with hx | hx
            · rcases h2 with h2 | h2 <;> rw [h2] at hx
              · have : hex (8232 &&& 15) = 56 := by decide
                simp [this] at hx
                omega
              · have : hex (8233 &&& 15) = 57 := by decide
                simp [this] at hx
                omega
            · rw [appendStringLoop_skip] at hx
              exact ih _ hdrop x hx
          · simp only [List.mem_append] at hx
            rcases hx with hx | hx
            · have := w2 x hx
              omega
            · rw [appendStringLoop_skip] at hx
              exact ih _ hdrop x hx

/-! ## The struct encoder and the reader of objects -/

theorem encodeFields_strings (bf : Bool) (fs : List Field)
    (hfs : ∀ f ∈ fs, ∃ s, f.value = .string s) :
    ∀ (next : Nat) (buf : Bytes),
      encodeFields bf fs next buf
        = .ok (buf ++ membersText bf next (writtenMembers fs),
            if writtenMembers fs = [] then next else 44) := by
  induction fs with
  | nil =>
    intro next buf
    simp [encodeFields, writtenMembers, membersText]
  | cons f fs ih =>
    intro next buf
    obtain ⟨s, hs⟩ := hfs f (by simp)
    have ih2 := ih (fun g hg => hfs g (by simp [hg]))
    by_cases hom : f.omitEmpty = true ∧ s = []
    · have h1 : (f.omitEmpty = true ∧ isEmptyValue f.value = true) := by
        simp [hs, isEmptyValue, hom.1, hom.2]
      have ew : writtenMembers (f :: fs) = writtenMembers fs := by
        simp only [writtenMembers, hs]
        rw [if_pos hom]
      rw [ew]
      simp only [encodeFields]
      rw [if_pos h1]
      exact ih2 next buf
    · have h1 : ¬ (f.omitEmpty = true ∧ isEmptyValue f.value = true) := by
        intro h
        apply hom
        refine ⟨h.1, ?_⟩
        have := h.2
        simp only [hs, isEmptyValue, beq_iff_eq] at this
        exact List.length_eq_zero.mp this
      have ew : writtenMembers (f :: fs) = (f.name, s) :: writtenMembers fs := by
        simp only [writtenMembers, hs]
        rw [if_neg hom]
      rw [ew]
      simp only [encodeFields]
      rw [if_neg h1]
      simp only [hs]
      rw [ih2 44 _]
      simp [membersText, appendString]

theorem membersText_length (bf : Bool) (m : List (Bytes × Bytes)) :
    ∀ sep : Nat, m.length ≤ (membersText bf sep m).length := by
  induction m with
  | nil => intro sep; simp
  | cons p m ih =>
    intro sep
    obtain ⟨k, v⟩ := p
    have := ih 44
    simp only [membersText, appendString, nameEscHTML, List.length_append, List.length_cons,
      List.length_nil]
    omega

theorem membersText_head (bf : Bool) (sep : Nat) (m : List (Bytes × Bytes)) (hm : m ≠ []) :
    (membersText bf sep m).head? = some sep := by
  cases m with
  | nil => exact absurd rfl hm
  | cons p m =>
    obtain ⟨k, v⟩ := p
    simp [membersText, appendString]

theorem membersText_printable (bf : Bool) (m : List (Bytes × Bytes))
    (hm : ∀ p ∈ m, ∀ x ∈ nameEscHTML p.1, 32 ≤ x) :
    ∀ sep : Nat, 32 ≤ sep → ∀ x ∈ membersText bf sep m, 32 ≤ x := by
  induction m with
  | nil => intro sep _ x hx; simp [membersText] at hx
  | cons p m ih =>
    intro sep hsep x hx
    obtain ⟨k, v⟩ := p
    have e : membersText bf sep ((k, v) :: m)
        = sep :: (nameEscHTML k ++ 34 :: (appendStringLoop bf 0 v
            ++ 34 :: membersText bf 44 m)) := by
      simp [membersText, appendString]
    rw [e] at hx
    simp only [List.mem_cons, List.mem_append] at hx
    rcases hx with rfl | hx | rfl | hx | rfl | hx
    · exact hsep
    · exact hm (k, v) (by simp) x hx
    · omega
    · exact appendStringLoop_printable bf v.length v (le_refl _) x hx
    · omega
    · exact ih (fun q hq => hm q (by simp [hq])) 44 (by omega) x hx

theorem readMembers_membersText (bf : Bool) (m : List (Bytes × Bytes))
    (hm : ∀ p ∈ m, CleanName p.1) :
    ∀ (sep fuel : Nat), m ≠ [] → m.length ≤ fuel →
      readMembers fuel ((membersText bf sep m).drop 1 ++ [125])
        = some (m.map fun p => (p.1, coerceUTF8 0 p.2)) := by
  induction m with
  | nil => intro sep fuel h; exact absurd rfl h
  | cons p m ih =>
    intro sep fuel _ hfuel
    obtain ⟨k, v⟩ := p
    obtain ⟨fuel, rfl⟩ : ∃ f, fuel = f + 1 := ⟨fuel - 1, by simp at hfuel; omega⟩
    have hk := hm (k, v) (by simp)
    have e : (membersText bf sep ((k, v) :: m)).drop 1 ++ [125]
        = 34 :: (k ++ 34 :: 58 :: 34 :: (appendStringLoop bf 0 v
            ++ 34 :: (membersText bf 44 m ++ [125]))) := by
      simp [membersText, appendString, nameEscHTML, hk.1]
    rw [e]
    have r1 : readChars .plain (k ++ 34 :: 58 :: 34 :: (appendStringLoop bf 0 v
            ++ 34 :: (membersText bf 44 m ++ [125])))
        = some (k, 58 :: 34 :: (appendStringLoop bf 0 v
            ++ 34 :: (membersText bf 44 m ++ [125]))) := by
      rw [readChars_chunk _ _ _ _ _ hk.2]
      simp [readChars, rdStep]
    have r2 := readChars_appendStringLoop bf v.length v (le_refl _) (membersText bf 44 m ++ [125])
    cases m with
    | nil =>
      simp only [membersText, List.nil_append] at r1 r2 ⊢
      simp [readMembers, r1, r2]
    | cons q m2 =>
      obtain ⟨k2, v2⟩ := q
      have e2 : membersText bf 44 ((k2, v2) :: m2) ++ [125]
          = 44 :: ((membersText bf 44 ((k2, v2) :: m2)).drop 1 ++ [125]) := by
        simp [membersText, appendString]
      have i1 := ih (fun p hp => hm p (by simp [hp])) 44 fuel (by simp)
        (by simp at hfuel ⊢; omega)
      rw [e2] at r1 r2 ⊢
      simp only [readMembers, r1, r2]
      have hne : (membersText bf 44 ((k2, v2) :: m2)).drop 1 ++ [125] ≠ [] := by simp
      cases hl : (membersText bf 44 ((k2, v2) :: m2)).drop 1 ++ [125] with
      | nil => exact absurd hl hne
      | cons c l =>
        rw [hl] at i1
        simp [i1]

/-! ## The entry -/

theorem cleanNames :
    CleanName (ascii "message") ∧ CleanName (ascii "severity")
      ∧ CleanName (ascii "logging.googleapis.com/trace")
      ∧ CleanName (ascii "logging.googleapis.com/spanId")
      ∧ CleanName (ascii "component") := by
  unfold CleanName
  decide

theorem namesPrintable :
    (∀ x ∈ nameEscHTML (ascii "message"), 32 ≤ x)
      ∧ (∀ x ∈ nameEscHTML (ascii "severity"), 32 ≤ x)
      ∧ (∀ x ∈ nameEscHTML (ascii "logging.googleapis.com/trace"), 32 ≤ x)
      ∧ (∀ x ∈ nameEscHTML (ascii "logging.googleapis.com/spanId"), 32 ≤ x)
      ∧ (∀ x ∈ nameEscHTML (ascii "component"), 32 ≤ x) := by
  decide

theorem keyBytes :
    ascii "message" = [109, 101, 115, 115, 97, 103, 101]
      ∧ ascii "severity" = [115, 101, 118, 101, 114, 105, 116, 121]
      ∧ ascii "logging.googleapis.com/trace"
          = [108, 111, 103, 103, 105, 110, 103, 46, 103, 111, 111, 103, 108, 101, 97, 112,
              105, 115, 46, 99, 111, 109, 47, 116, 114, 97, 99, 101]
      ∧ ascii "logging.googleapis.com/spanId"
          = [108, 111, 103, 103, 105, 110, 103, 46, 103, 111, 111, 103, 108, 101, 97, 112,
              105, 115, 46, 99, 111, 109, 47, 115, 112, 97, 110, 73, 100]
      ∧ ascii "component" = [99, 111, 109, 112, 111, 110, 101, 110, 116] := by
  decide

theorem Entry.fields_strings (e : Entry) : ∀ f ∈ e.fields, ∃ s, f.value = .string s := by
  intro f hf
  simp only [Entry.fields, List.mem_cons, List.mem_singleton, List.not_mem_nil, or_false] at hf
  rcases hf with rfl | rfl | rfl | rfl | rfl <;> exact ⟨_, rfl⟩

theorem Entry.writtenMembers_fields (e : Entry) :
    writtenMembers
        (Entry.fields (if e.Severity = [] then { e with Severity := ascii "INFO" } else e))
      = e.members := by
  have hinfo : ascii "INFO" ≠ [] := by decide
  by_cases h1 : e.Severity = [] <;> by_cases h2 : e.Trace = [] <;>
    by_cases h3 : e.SpanId = [] <;> by_cases h4 : e.Component = [] <;>
    simp [writtenMembers, Entry.fields, Entry.members, h1, h2, h3, h4, hinfo]

theorem Entry.members_clean (e : Entry) : ∀ p ∈ e.members, CleanName p.1 := by
  obtain ⟨c1, c2, c3, c4, c5⟩ := cleanNames
  intro p hp
  simp only [Entry.members, List.mem_append, List.mem_cons, List.mem_singleton,
    List.not_mem_nil, or_false] at hp
  rcases hp with ((((rfl | rfl) | hp) | hp) | hp)
  · exact c1
  · exact c2
  · split_ifs at hp
    · simp at hp
    · simp only [List.mem_singleton] at hp
      subst hp
      exact c3
  · split_ifs at hp
    · simp at hp
    · simp only [List.mem_singleton] at hp
      subst hp
      exact c4
  · split_ifs at hp
    · simp at hp
    · simp only [List.mem_singleton] at hp
      subst hp
      exact c5

theorem Entry.members_printable (e : Entry) : ∀ p ∈ e.members, ∀ x ∈ nameEscHTML p.1, 32 ≤ x := by
  obtain ⟨c1, c2, c3, c4, c5⟩ := namesPrintable
  intro p hp
  simp only [Entry.members, List.mem_append, List.mem_cons, List.mem_singleton,
    List.not_mem_nil, or_false] at hp
  rcases hp with ((((rfl | rfl) | hp) | hp) | hp)
  · exact c1
  · exact c2
  · split_ifs at hp
    · simp at hp
    · simp only [List.mem_singleton] at hp
      subst hp
      exact c3
  · split_ifs at hp
    · simp at hp
    · simp only [List.mem_singleton] at hp
      subst hp
      exact c4
  · split_ifs at hp
    · simp at hp
    · simp only [List.mem_singleton] at hp
      subst hp
      exact c5

theorem Entry.members_ne_nil (e : Entry) : e.members ≠ [] := by
  simp [Entry.members]

theorem Entry.members_lookup (e : Entry) (f : Bytes → Bytes) :
    (e.members.map fun p => (p.1, f p.2)).lookup (ascii "message") = some (f e.Message)
      ∧ (e.members.map fun p => (p.1, f p.2)).lookup (ascii "severity")
          = some (f (if e.Severity = [] then ascii "INFO" else e.Severity))
      ∧ (e.members.map fun p => (p.1, f p.2)).lookup (ascii "logging.googleapis.com/trace")
          = (if e.Trace = [] then none else some (f e.Trace))
      ∧ (e.members.map fun p => (p.1, f p.2)).lookup (ascii "logging.googleapis.com/spanId")
          = (if e.SpanId = [] then none else some (f e.SpanId))
      ∧ (e.members.map fun p => (p.1, f p.2)).lookup (ascii "component")
          = (if e.Component = [] then none else some (f e.Component)) := by
  obtain ⟨k1, k2, k3, k4, k5⟩ := keyBytes
  simp only [Entry.members, k1, k2, k3, k4, k5]
  by_cases h2 : e.Trace = [] <;> by_cases h3 : e.SpanId = [] <;>
    by_cases h4 : e.Component = [] <;>
    simp [List.lookup, h2, h3, h4]

theorem Marshal_error_nil (bf : Bool) (v : List Field) (h : (Marshal bf v).2 ≠ none) :
    (Marshal bf v).1 = [] := by
  unfold Marshal at h ⊢
  cases hs : structEncoder bf v with
  | error e => rfl
  | ok b => simp [hs] at h

theorem Marshal_entry (bf : Bool) (e : Entry) :
    Marshal bf (Entry.fields (if e.Severity = [] then { e with Severity := ascii "INFO" } else e))
      = (membersText bf 123 e.members ++ [125], none) := by
  have h := encodeFields_strings bf _ (Entry.fields_strings
    (if e.Severity = [] then { e with Severity := ascii "INFO" } else e)) 123 []
  rw [Entry.writtenMembers_fields] at h
  have hne := Entry.members_ne_nil e
  simp only [Marshal, structEncoder, h, hne, if_false, List.nil_append]
  simp

theorem Entry.String_returns (bf : Bool) (e : Entry) (s : State) :
    Entry.String bf e s = (s, .ok (membersText bf 123 e.members ++ [125])) := by
  simp only [Entry.String, Entry.StringWith, Marshal_entry]
  rfl

theorem readObject_entry (bf : Bool) (e : Entry) :
    readObject (membersText bf 123 e.members ++ [125])
      = some (e.members.map fun p => (p.1, coerceUTF8 0 p.2)) := by
  have hne := Entry.members_ne_nil e
  have hr := readMembers_membersText bf e.members (Entry.members_clean e) 123
    (membersText bf 123 e.members ++ [125]).length hne
    (by have := membersText_length bf e.members 123; simp; omega)
  cases hm : e.members with
  | nil => exact absurd hm hne
  | cons p m =>
    obtain ⟨k, v⟩ := p
    rw [hm] at hr
    have e1 : membersText bf 123 ((k, v) :: m) ++ [125]
        = 123 :: ((membersText bf 123 ((k, v) :: m)).drop 1 ++ [125]) := by
      simp [membersText, appendString]
    have e2 : (membersText bf 123 ((k, v) :: m)).drop 1 ++ [125] ≠ [125] := by
      simp [membersText, appendString, nameEscHTML]
    rw [e1] at hr ⊢
    simp only [readObject, ne_eq, not_true_eq_false, if_false, e2]
    exact hr

theorem jsonField_entry (bf : Bool) (e : Entry) (key : Bytes) :
    jsonField (membersText bf 123 e.members ++ [125]) key
      = some ((e.members.map fun p => (p.1, coerceUTF8 0 p.2)).lookup key) := by
  simp [jsonField, readObject_entry]

theorem entry_line_ne (bf : Bool) (e : Entry) (X : Bytes) (c : Nat) (hc : c ≠ 123)
    (hX : X.head? = some c) :
    membersText bf 123 e.members ++ [125, 10] ≠ logLine X := by
  unfold logLine
  intro h
  have h1 : (membersText bf 123 e.members ++ [125, 10]).head? = some 123 := by
    have := membersText_head bf 123 e.members (Entry.members_ne_nil e)
    cases hm : membersText bf 123 e.members with
    | nil => simp [hm] at this
    | cons a l =>
      rw [hm] at this
      simpa using this
  have h2 : (if X.getLast? = some 10 then X else X ++ [10]).head? = some c := by
    cases X with
    | nil => simp at hX
    | cons a l =>
      split_ifs
      · exact hX
      · simpa using hX
  rw [h, h2] at h1
  exact hc (Option.some.inj h1)

theorem fatal_lines (err : Bytes) :
    (Sprintf (ascii "Not found .env file: %v") [err]).head? = some 78
      ∧ (Sprintf (ascii "texporter.New: %v") [err]).head? = some 116
      ∧ (Sprintf (ascii "resource.New: %v") [err]).head? = some 114 := by
  simp [Sprintf, ascii]

/-! ## The claims -/

/-- C1 (as amended). For every entry, `String` returns a JSON object with a
`severity` member: it is `INFO` when `Severity` is empty, and otherwise
`Severity` with every byte that starts no valid UTF-8 encoding replaced by
U+FFFD, which is `Severity` itself whenever `Severity` is valid UTF-8; the
serialized severity is never empty. -/
theorem severity_field (bf : Bool) (e : Entry) (s : State) :
    ∃ out, Entry.String bf e s = (s, .ok out)
      ∧ jsonField out (ascii "severity")
          = some (some (if e.Severity = [] then ascii "INFO" else coerceUTF8 0 e.Severity))
      ∧ (ValidString 0 e.Severity = true → coerceUTF8 0 e.Severity = e.Severity)
      ∧ (if e.Severity = [] then ascii "INFO" else coerceUTF8 0 e.Severity) ≠ [] := by
  refine ⟨_, Entry.String_returns bf e s, ?_, ?_, ?_⟩
  · rw [jsonField_entry, (Entry.members_lookup e (coerceUTF8 0)).2.1]
    by_cases h : e.Severity = []
    · simp only [h, if_true]
      have : coerceUTF8 0 (ascii "INFO") = ascii "INFO" := by decide
      rw [this]
    · simp only [h, if_false]
  · exact coerceUTF8_valid _ _ (le_refl _)
  · by_cases h : e.Severity = []
    · simp only [h, if_true]
      decide
    · simp only [h, if_false]
      exact coerceUTF8_ne_nil _ h

/-- Witness of C1: a severity that is valid UTF-8, two bytes for one rune,
comes out unchanged. -/
theorem severity_field_witness :
    ValidString 0 [0xC3, 0xA9] = true
      ∧ ∃ out, Entry.String true ⟨ascii "m", [0xC3, 0xA9], [], [], []⟩ idle = (idle, .ok out)
          ∧ jsonField out (ascii "severity") = some (some [0xC3, 0xA9]) := by
  obtain ⟨out, h1, h2, h3, _⟩ := severity_field true ⟨ascii "m", [0xC3, 0xA9], [], [], []⟩ idle
  refine ⟨by decide, out, h1, ?_⟩
  rw [h2]
  have h4 := h3 (by decide)
  simp only at h4
  simp [h4]

/-- C1, as stated, fails: an entry whose `Severity` is the single byte 0xFF
(not valid UTF-8) is serialized with the severity U+FFFD (EF BF BD), not with
its `Severity` unchanged. -/
theorem severity_not_unchanged :
    Entry.String true ⟨[], [0xFF], [], [], []⟩ idle
        = (idle, .ok (ascii "\x7b\"message\":\"\",\"severity\":\"\\ufffd\"\x7d"))
      ∧ Entry.String false ⟨[], [0xFF], [], [], []⟩ idle
        = (idle, .ok (ascii "\x7b\"message\":\"\",\"severity\":\"\\ufffd\"\x7d"))
      ∧ jsonField (ascii "\x7b\"message\":\"\",\"severity\":\"\\ufffd\"\x7d") (ascii "severity")
        = some (some [0xEF, 0xBF, 0xBD])
      ∧ jsonField (ascii "\x7b\"message\":\"\",\"severity\":\"\\ufffd\"\x7d") (ascii "severity")
        ≠ some (some [0xFF]) := by
  decide

/-- C2 (as amended). For every entry and each of `Trace`, `SpanId` and
`Component`: when the field is empty its key is absent from the JSON object
`String` returns; when it is not empty the key is present, and its value is
the field with every byte that starts no valid UTF-8 encoding replaced by
U+FFFD, which is the field itself whenever the field is valid UTF-8. -/
theorem optional_fields (bf : Bool) (e : Entry) (s : State) :
    ∃ out, Entry.String bf e s = (s, .ok out)
      ∧ jsonField out (ascii "logging.googleapis.com/trace")
          = some (if e.Trace = [] then none else some (coerceUTF8 0 e.Trace))
      ∧ jsonField out (ascii "logging.googleapis.com/spanId")
          = some (if e.SpanId = [] then none else some (coerceUTF8 0 e.SpanId))
      ∧ jsonField out (ascii "component")
          = some (if e.Component = [] then none else some (coerceUTF8 0 e.Component))
      ∧ (ValidString 0 e.Trace = true → coerceUTF8 0 e.Trace = e.Trace)
      ∧ (ValidString 0 e.SpanId = true → coerceUTF8 0 e.SpanId = e.SpanId)
      ∧ (ValidString 0 e.Component = true → coerceUTF8 0 e.Component = e.Component) := by
  obtain ⟨_, _, l3, l4, l5⟩ := Entry.members_lookup e (coerceUTF8 0)
  refine ⟨_, Entry.String_returns bf e s, ?_, ?_, ?_, ?_, ?_, ?_⟩
  · rw [jsonField_entry, l3]
  · rw [jsonField_entry, l4]
  · rw [jsonField_entry, l5]
  · exact coerceUTF8_valid _ _ (le_refl _)
  · exact coerceUTF8_valid _ _ (le_refl _)
  · exact coerceUTF8_valid _ _ (le_refl _)

/-- Witness of C2: a component that is valid UTF-8 comes out unchanged, and
the two empty fields are absent. -/
theorem optional_fields_witness :
    ValidString 0 (ascii "sample") = true
      ∧ ∃ out, Entry.String true ⟨ascii "m", [], [], [], ascii "sample"⟩ idle = (idle, .ok out)
          ∧ jsonField out (ascii "component") = some (some (ascii "sample"))
          ∧ jsonField out (ascii "logging.googleapis.com/trace") = some none
          ∧ jsonField out (ascii "logging.googleapis.com/spanId") = some none := by
  obtain ⟨out, h1, h2, h3, h4, _, _, h7⟩ :=
    optional_fields true ⟨ascii "m", [], [], [], ascii "sample"⟩ idle
  refine ⟨by decide, out, h1, ?_, ?_, ?_⟩
  · rw [h4]
    have h8 := h7 (by decide)
    simp only at h8
    rw [h8]
    decide
  · rw [h2]
    rfl
  · rw [h3]
    rfl

/-- C2, as stated, fails: an entry whose `Component` is the single byte 0xFF
(not valid UTF-8) is serialized with the component U+FFFD (EF BF BD), not
with the exact value given. -/
theorem component_not_exact :
    Entry.String true ⟨[], [], [], [], [0xFF]⟩ idle
        = (idle, .ok (ascii "\x7b\"message\":\"\",\"severity\":\"INFO\",\"component\":\"\\ufffd\"\x7d"))
      ∧ Entry.String false ⟨[], [], [], [], [0xFF]⟩ idle
        = (idle, .ok (ascii "\x7b\"message\":\"\",\"severity\":\"INFO\",\"component\":\"\\ufffd\"\x7d"))
      ∧ jsonField (ascii "\x7b\"message\":\"\",\"severity\":\"INFO\",\"component\":\"\\ufffd\"\x7d")
          (ascii "component")
        = some (some [0xEF, 0xBF, 0xBD])
      ∧ jsonField (ascii "\x7b\"message\":\"\",\"severity\":\"INFO\",\"component\":\"\\ufffd\"\x7d")
          (ascii "component")
        ≠ some (some [0xFF]) := by
  decide

/-- C3. For every environment and trace id, `makeTraceIdFmt` returns
`projects/`, the value of `PROJECT_ID` (empty when unset), `/traces/` and the
trace id, whatever these are; so with `PROJECT_ID` set to `p` it returns
`projects/p/traces/t`, `projects/p1/traces/abc123` for `p1` and `abc123`,
and `projects//traces/x` for an empty or unset project and `x`. -/
theorem makeTraceIdFmt_spec :
    (∀ (env : Env) (t : Bytes),
        makeTraceIdFmt env t
          = ascii "projects/" ++ Getenv env (ascii "PROJECT_ID") ++ ascii "/traces/" ++ t)
      ∧ (∀ (env : Env) (p t : Bytes),
        makeTraceIdFmt ((ascii "PROJECT_ID", p) :: env) t
          = ascii "projects/" ++ p ++ ascii "/traces/" ++ t)
      ∧ makeTraceIdFmt [(ascii "PROJECT_ID", ascii "p1")] (ascii "abc123")
          = ascii "projects/p1/traces/abc123"
      ∧ makeTraceIdFmt [(ascii "PROJECT_ID", ascii "")] (ascii "x") = ascii "projects//traces/x"
      ∧ makeTraceIdFmt [] (ascii "x") = ascii "projects//traces/x" := by
  have gen : ∀ (env : Env) (t : Bytes),
      makeTraceIdFmt env t
        = ascii "projects/" ++ Getenv env (ascii "PROJECT_ID") ++ ascii "/traces/" ++ t := by
    intro env t
    simp [makeTraceIdFmt, Sprintf, ascii]
  refine ⟨gen, ?_, by decide, by decide, by decide⟩
  intro env p t
  rw [gen]
  simp [Getenv, List.lookup]

/-- C4 (as amended). For every entry, also one whose `Message` is empty, the
JSON object `String` returns has the `message` key; its value is `Message`
with every byte that starts no valid UTF-8 encoding replaced by U+FFFD,
which is `Message` itself whenever `Message` is valid UTF-8 (the empty
message included). -/
theorem message_field (bf : Bool) (e : Entry) (s : State) :
    ∃ out, Entry.String bf e s = (s, .ok out)
      ∧ jsonField out (ascii "message") = some (some (coerceUTF8 0 e.Message))
      ∧ (ValidString 0 e.Message = true → coerceUTF8 0 e.Message = e.Message)
      ∧ (e.Message = [] → jsonField out (ascii "message") = some (some [])) := by
  have l1 := (Entry.members_lookup e (coerceUTF8 0)).1
  refine ⟨_, Entry.String_returns bf e s, ?_, ?_, ?_⟩
  · rw [jsonField_entry, l1]
  · exact coerceUTF8_valid _ _ (le_refl _)
  · intro h
    rw [jsonField_entry, l1, h]
    rfl

/-- Witness of C4: a message that is valid UTF-8 comes out unchanged. -/
theorem message_field_witness :
    ValidString 0 (ascii "Request Server") = true
      ∧ ∃ out, Entry.String true ⟨ascii "Request Server", [], [], [], []⟩ idle = (idle, .ok out)
          ∧ jsonField out (ascii "message") = some (some (ascii "Request Server")) := by
  obtain ⟨out, h1, h2, h3, _⟩ :=
    message_field true ⟨ascii "Request Server", [], [], [], []⟩ idle
  refine ⟨by decide, out, h1, ?_⟩
  rw [h2]
  have h4 := h3 (by decide)
  simp only at h4
  rw [h4]

/-- C4, as stated, fails: an entry whose `Message` is the single byte 0xFF
(not valid UTF-8) is serialized with the message U+FFFD (EF BF BD), not with
the value of `Message`. -/
theorem message_not_exact :
    Entry.String true ⟨[0xFF], [], [], [], []⟩ idle
        = (idle, .ok (ascii "\x7b\"message\":\"\\ufffd\",\"severity\":\"INFO\"\x7d"))
      ∧ Entry.String false ⟨[0xFF], [], [], [], []⟩ idle
        = (idle, .ok (ascii "\x7b\"message\":\"\\ufffd\",\"severity\":\"INFO\"\x7d"))
      ∧ jsonField (ascii "\x7b\"message\":\"\\ufffd\",\"severity\":\"INFO\"\x7d") (ascii "message")
        = some (some [0xEF, 0xBF, 0xBD])
      ∧ jsonField (ascii "\x7b\"message\":\"\\ufffd\",\"severity\":\"INFO\"\x7d") (ascii "message")
        ≠ some (some [0xFF]) := by
  decide

/-- C5. For every entry, whatever bytes its fields hold, the string `String`
returns holds no line feed and no carriage return: every byte of it is 0x20
or more. -/
theorem string_single_line (bf : Bool) (e : Entry) (s : State) :
    ∃ out, Entry.String bf e s = (s, .ok out)
      ∧ 10 ∉ out ∧ 13 ∉ out ∧ ∀ x ∈ out, 32 ≤ x := by
  have hall : ∀ x ∈ membersText bf 123 e.members ++ [125], 32 ≤ x := by
    intro x hx
    simp only [List.mem_append, List.mem_singleton] at hx
    rcases hx with hx | rfl
    · exact membersText_printable bf e.members (Entry.members_printable e) 123 (by omega) x hx
    · omega
  refine ⟨_, Entry.String_returns bf e s, ?_, ?_, hall⟩
  · intro h
    have := hall 10 h
    omega
  · intro h
    have := hall 13 h
    omega

/-- C6. Whenever the serialization of the entry fails inside `Entry.String`,
the failure is logged and `String` returns the empty string. `Entry.String`
is the body `Entry.StringWith` run with `json.Marshal`, and `json.Marshal`
returns a nil slice with every error. For every serializer that does so and
fails on the entry (its severity defaulted), the body logs one line,
`json.Marshal: ` and the error, through `log.Printf`, and returns the empty
string: the outcome is a return, not an exit, and nothing else is done, the
serializer being called once. -/
theorem marshal_failure_logged (bf : Bool) (marshal : List Field → Bytes × Option Bytes)
    (e : Entry) (err : Bytes) (s : State)
    (hnil : ∀ v, (marshal v).2 ≠ none → (marshal v).1 = [])
    (hfail : (marshal
        (Entry.fields (if e.Severity = [] then { e with Severity := ascii "INFO" } else e))).2
          = some err) :
    Entry.String bf e = Entry.StringWith (Marshal bf) e
      ∧ (∀ v, (Marshal bf v).2 ≠ none → (Marshal bf v).1 = [])
      ∧ Entry.StringWith marshal e s
          = ({ s with trace := s.trace
                ++ [.logOutput s.logFlags (logLine (ascii "json.Marshal: " ++ err))] },
              .ok []) := by
  refine ⟨rfl, fun v hv => Marshal_error_nil bf v hv, ?_⟩
  have h1 := hnil _ (by rw [hfail]; simp)
  have hf : Sprintf (ascii "json.Marshal: %v") [err] = ascii "json.Marshal: " ++ err := by
    simp [Sprintf, ascii]
  simp only [Entry.StringWith, hfail, h1, logPrintf, hf]
  rfl

/-- Witness of C6: run with a serializer that meets a channel before the
fields of the entry, and so fails as `json.Marshal` does on a channel, the
body of `String` logs one line and returns the empty string. -/
theorem marshal_failure_logged_witness :
    (Marshal true (⟨ascii "ch", false, .unsupported (ascii "chan int")⟩
        :: Entry.fields ⟨ascii "Request Server", ascii "INFO", [], [], []⟩)).2
        = some (ascii "json: unsupported type: chan int")
      ∧ Entry.StringWith
          (fun v => Marshal true (⟨ascii "ch", false, .unsupported (ascii "chan int")⟩ :: v))
          ⟨ascii "Request Server", ascii "INFO", [], [], []⟩ idle
        = ({ idle with trace := [.logOutput 0
              (ascii "json.Marshal: json: unsupported type: chan int\n")] }, .ok []) := by
  refine ⟨by decide, ?_⟩
  rw [(marshal_failure_logged true
    (fun v => Marshal true (⟨ascii "ch", false, .unsupported (ascii "chan int")⟩ :: v))
    ⟨ascii "Request Server", ascii "INFO", [], [], []⟩
    (ascii "json: unsupported type: chan int") idle
    (fun v hv => Marshal_error_nil true _ hv) (by decide)).2.2]
  decide

/-- C7, the run of the code where the claim fails. When `Client.Do` fails, or
when `http.NewRequestWithContext` fails, the span `requestServer` has been
started and the process exits with status 1 without ending it: `log.Fatal`
ends the process through `os.Exit`, which skips the deferred `span.End()`.
When the request succeeds the span is ended. -/
theorem span_not_ended_on_fatal_request :
    (.spanStart (ascii "requestServer") ∈ (run refusedWorld).trace
        ∧ .spanEnd ∉ (run refusedWorld).trace
        ∧ (run refusedWorld).trace.getLast? = some (.exit 1))
      ∧ (.spanStart (ascii "requestServer") ∈ (run badUrlWorld).trace
        ∧ .spanEnd ∉ (run badUrlWorld).trace
        ∧ (run badUrlWorld).trace.getLast? = some (.exit 1))
      ∧ (.spanStart (ascii "requestServer") ∈ (run servedWorld).trace
        ∧ .spanEnd ∈ (run servedWorld).trace
        ∧ (run servedWorld).trace.getLast? = some (.exit 0)) := by
  decide

/-- C8, the run of the code where the claim fails. When `Client.Do` fails, or
when `http.NewRequestWithContext` fails, the trace provider has been
constructed and the process exits with status 1 without any call of its
`Shutdown`: `log.Fatal` ends the process through `os.Exit`, which skips the
deferred `tp.Shutdown(ctx)`. When the request succeeds `Shutdown` is called
once, after the span has ended. -/
theorem shutdown_skipped_on_fatal_request :
    (.newTracerProvider ∈ (run refusedWorld).trace
        ∧ (run refusedWorld).trace.count .shutdown = 0
        ∧ (run refusedWorld).trace.getLast? = some (.exit 1))
      ∧ (.newTracerProvider ∈ (run badUrlWorld).trace
        ∧ (run badUrlWorld).trace.count .shutdown = 0
        ∧ (run badUrlWorld).trace.getLast? = some (.exit 1))
      ∧ (.newTracerProvider ∈ (run servedWorld).trace
        ∧ (run servedWorld).trace.count .shutdown = 1
        ∧ (run servedWorld).trace.reverse.take 3 = [.exit 0, .shutdown, .spanEnd]) := by
  decide

/-- C9. If `texporter.New` or `resource.New` returns an error, the process
exits with status 1 right after logging the error: the trace ends with that
log line and the exit; no trace provider is constructed or registered, no
propagator is set, no span is started, no request is built or sent, and no
line logged is the text of an entry. -/
theorem init_failure_is_fatal (w : World)
    (h : w.exporterErr ≠ none ∨ w.resourceErr ≠ none) :
    (run w).trace.getLast? = some (.exit 1)
      ∧ (∃ line, (run w).trace.dropLast.getLast? = some (.logOutput 0 line))
      ∧ .exit 0 ∉ (run w).trace
      ∧ .newTracerProvider ∉ (run w).trace
      ∧ .setTracerProvider ∉ (run w).trace
      ∧ .setTextMapPropagator ∉ (run w).trace
      ∧ (∀ n, .spanStart n ∉ (run w).trace)
      ∧ (∀ m u, .newRequest m u ∉ (run w).trace)
      ∧ .clientDo ∉ (run w).trace
      ∧ (∀ bf e s out flags, Entry.String bf e s = (s, .ok out) →
          .logOutput flags (out ++ [10]) ∉ (run w).trace) := by
  obtain ⟨bf, environ, envFile, exporterErr, resourceErr, traceID, spanID, requestErr, doErr⟩ := w
  simp only at h
  have hd : (∃ err, exporterErr = some err)
      ∨ (exporterErr = none ∧ ∃ err, resourceErr = some err) := by
    cases exporterErr with
    | some err => exact Or.inl ⟨err, rfl⟩
    | none =>
      cases resourceErr with
      | some err => exact Or.inr ⟨rfl, err, rfl⟩
      | none => simp at h
  have key : ∀ (bf2 : Bool) (e : Entry) (X : Bytes) (c : Nat), c ≠ 123 → X.head? = some c →
      membersText bf2 123 e.members ++ [125, 10] ≠ logLine X :=
    fun bf2 e X c hc hX => entry_line_ne bf2 e X c hc hX
  rcases hd with ⟨err, rfl⟩ | ⟨rfl, err, rfl⟩
  all_goals cases envFile
  all_goals
    generalize hT : (run _).trace = T
    simp [run, main, loadEnvFile, initTraceProvider, bind, Proc.bind, emit, logPrintf,
      logFatalf, logOutputText, osExit, logSetFlags, getEnv, startState, pure, setFromFile] at hT
    subst hT
    refine ⟨by simp, by simp, by simp, by simp, by simp, by simp, by simp, by simp, by simp, ?_⟩
    intro bf2 e s out flags hS hmem
    rw [Entry.String_returns] at hS
    simp only [Prod.mk.injEq, true_and, Outcome.ok.injEq] at hS
    subst hS
    simp only [List.mem_cons, List.not_mem_nil, or_false, Event.logOutput.injEq, reduceCtorEq,
      false_or] at hmem
    have k1 := fun x => key bf2 e _ 78 (by omega) (fatal_lines x).1
    have k2 := fun x => key bf2 e _ 116 (by omega) (fatal_lines x).2.1
    have k3 := fun x => key bf2 e _ 114 (by omega) (fatal_lines x).2.2
    simp [k1, k2, k3] at hmem

/-- Witness of C9: with an exporter that cannot be constructed the run is two
calls, the fatal log line and the exit with status 1. -/
theorem init_failure_is_fatal_witness :
    ({ servedWorld with exporterErr := some (ascii "could not find default credentials") } : World).exporterErr
        ≠ none
      ∧ (run { servedWorld with exporterErr := some (ascii "could not find default credentials") }).trace.getLast?
        = some (.exit 1)
      ∧ Event.setTracerProvider
        ∉ (run { servedWorld with exporterErr := some (ascii "could not find default credentials") }).trace
      ∧ (∀ n, Event.spanStart n
        ∉ (run { servedWorld with exporterErr := some (ascii "could not find default credentials") }).trace) := by
  have h := init_failure_is_fatal
    { servedWorld with exporterErr := some (ascii "could not find default credentials") }
    (Or.inl (by decide))
  exact ⟨by decide, h.1, h.2.2.2.2.1, h.2.2.2.2.2.2.1⟩

/-- C10. For every entry, `json.Marshal` returns no error on it (so the
error branch of `String` is not taken and nothing is logged), and the string
`String` returns is not empty: it is a JSON object that has the `message`
and `severity` keys. -/
theorem marshal_cannot_fail (bf : Bool) (e : Entry) (s : State) :
    (Marshal bf e.fields).2 = none
      ∧ ∃ out, Entry.String bf e s = (s, .ok out) ∧ out ≠ []
          ∧ (∃ v, jsonField out (ascii "message") = some (some v))
          ∧ (∃ v, jsonField out (ascii "severity") = some (some v)) := by
  refine ⟨?_, _, Entry.String_returns bf e s, by simp, ?_, ?_⟩
  · have h := encodeFields_strings bf _ (Entry.fields_strings e) 123 []
    simp only [Marshal, structEncoder, h]
    split_ifs <;> rfl
  · exact ⟨_, by rw [jsonField_entry, (Entry.members_lookup e (coerceUTF8 0)).1]⟩
  · exact ⟨_, by rw [jsonField_entry, (Entry.members_lookup e (coerceUTF8 0)).2.1]⟩

end TraceClient
